import Mathlib

/-!
Verification of the TableSorter repository: the JSON data provider's
stacked-sort scoring and exhaustion state machine, and the PowerBI
config-builder's column/layout synchronization.

The data-provider component (`JSONDataProvider` / stack ranking) is not part
of the source tree here (only its test file is), so those definitions are
modelled from the specification.  The config-builder definitions are
translated from `src/powerbi/ConfigBuilder.ts`.
-/

/- Rational arithmetic is `@[irreducible]` upstream; make it reducible so
that concrete scenario computations can be settled by `decide`. -/
attribute [local semireducible] Rat.add Rat.sub Rat.mul Rat.inv

namespace TableSorter

/-- A cell value of a row: a number, a string, or null/undefined.
Modelled from the spec: rows map column names to `string | number | null`. -/
inductive CellValue where
  | num (v : ℚ)
  | str (s : String)
  | null
  deriving DecidableEq

/-- A row is a mapping from column name to value; a missing key behaves as
null/undefined. Modelled from the spec data model. -/
abbrev Row := List (String × CellValue)

/-- Look up a cell; absent columns read as null (undefined). -/
def rowGet (r : Row) (c : String) : CellValue :=
  (List.lookup c r).getD .null

/-- Numeric view of a cell: `some` for numbers, `none` for null/undefined or
non-numeric values. -/
def rowGetNum (r : Row) (c : String) : Option ℚ :=
  match rowGet r c with
  | .num v => some v
  | _ => none

/-- One member of a stack: a column name with a user-assigned weight.
Modelled from the spec `StackDescriptor`. -/
structure StackColumn where
  column : String
  weight : ℚ
  deriving DecidableEq

/-- A named group of weighted columns. Modelled from the spec. -/
structure StackDescriptor where
  name : String
  columns : List StackColumn
  deriving DecidableEq

/-- A sort specification: a simple single-column sort or a stacked sort,
mutually exclusive variants. Modelled from the spec `SortSpec`. -/
inductive SortSpec where
  | simple (column : String) (asc : Bool)
  | stacked (stack : StackDescriptor) (asc : Bool)
  deriving DecidableEq

/-! ## StackRanker: normalization and composite scoring -/

/-- Modelled from the spec: per-value normalization `norm(v, min, max)`.
Null/undefined contributes 0; a degenerate domain (`max = min`) gives 0 for
every defined value; otherwise linear scaling `(v - min) / (max - min)`. -/
def norm (v : Option ℚ) (lo hi : ℚ) : ℚ :=
  match v with
  | none => 0
  | some x => if hi = lo then 0 else (x - lo) / (hi - lo)

/-- Defined numeric values of a column over the rows being scored. -/
def colValues (rows : List Row) (c : String) : List ℚ :=
  rows.filterMap (fun r => rowGetNum r c)

/-- Minimum of a column's defined values over the rows being scored
(0 when the column has no defined value).
Modelled from the spec: domains are computed over the rows being scored. -/
def colMin (rows : List Row) (c : String) : ℚ :=
  match colValues rows c with
  | [] => 0
  | v :: vs => vs.foldl min v

/-- Maximum of a column's defined values over the rows being scored
(0 when the column has no defined value). -/
def colMax (rows : List Row) (c : String) : ℚ :=
  match colValues rows c with
  | [] => 0
  | v :: vs => vs.foldl max v

/-- One weighted term of the composite score:
`norm(v_i, min_i, max_i) * weight_i`. Modelled from the spec. -/
def stackTerm (rows : List Row) (sc : StackColumn) (r : Row) : ℚ :=
  norm (rowGetNum r sc.column) (colMin rows sc.column) (colMax rows sc.column) * sc.weight

/-- Composite score of a row: the weighted sum across the stack's member
columns. Modelled from the spec. -/
def compositeScore (rows : List Row) (stack : StackDescriptor) (r : Row) : ℚ :=
  (stack.columns.map (fun sc => stackTerm rows sc r)).sum

/-! ## Stable sorting by key

The spec requires stable-sort semantics: ties broken by original input
order.  We realize this by decorating each row with its input index and
sorting by the lexicographic order (key, then index). -/

/-- Lexicographic comparison on indexed elements: first by key (ascending or
descending according to `asc`), ties broken by input index. -/
def lexRel {α β : Type} [LinearOrder β] (key : α → β) (asc : Bool) (a b : ℕ × α) : Prop :=
  (if asc then key a.2 < key b.2 else key b.2 < key a.2) ∨
    (key a.2 = key b.2 ∧ a.1 ≤ b.1)

instance {α β : Type} [LinearOrder β] (key : α → β) (asc : Bool) :
    DecidableRel (lexRel key asc) := fun a b => by
  unfold lexRel
  infer_instance

instance {α β : Type} [LinearOrder β] (key : α → β) (asc : Bool) :
    IsTotal (ℕ × α) (lexRel key asc) where
  total a b := by
    unfold lexRel
    rcases lt_trichotomy (key a.2) (key b.2) with h | h | h
    · cases asc
      · exact Or.inr (Or.inl (by simpa using h))
      · exact Or.inl (Or.inl (by simpa using h))
    · rcases Nat.le_total a.1 b.1 with hn | hn
      · exact Or.inl (Or.inr ⟨h, hn⟩)
      · exact Or.inr (Or.inr ⟨h.symm, hn⟩)
    · cases asc
      · exact Or.inl (Or.inl (by simpa using h))
      · exact Or.inr (Or.inl (by simpa using h))

instance {α β : Type} [LinearOrder β] (key : α → β) (asc : Bool) :
    IsTrans (ℕ × α) (lexRel key asc) where
  trans a b c hab hbc := by
    unfold lexRel at *
    cases asc <;> simp only [if_true, if_false, Bool.false_eq_true] at * <;>
      rcases hab with h1 | ⟨he1, hi1⟩ <;> rcases hbc with h2 | ⟨he2, hi2⟩
    · exact Or.inl (lt_trans h2 h1)
    · exact Or.inl (he2 ▸ h1)
    · exact Or.inl (he1 ▸ h2)
    · exact Or.inr ⟨he1.trans he2, hi1.trans hi2⟩
    · exact Or.inl (lt_trans h1 h2)
    · exact Or.inl (he2 ▸ h1)
    · exact Or.inl (he1 ▸ h2)
    · exact Or.inr ⟨he1.trans he2, hi1.trans hi2⟩

/-- Stable ranking: decorate with input indices and sort by (key, index). -/
def stableRank {α β : Type} [LinearOrder β] (key : α → β) (asc : Bool)
    (xs : List α) : List (ℕ × α) :=
  List.insertionSort (lexRel key asc) xs.enum

/-- Stable sort by key: the ranked list with indices stripped. -/
def stableSortBy {α β : Type} [LinearOrder β] (key : α → β) (asc : Bool)
    (xs : List α) : List α :=
  (stableRank key asc xs).map Prod.snd

/-! ## The data provider

Modelled from the spec: `JSONDataProvider` serves paged/sorted/filtered views
over a row set and tracks exhaustion; `filter` resets exhaustion, `query`
updates it, `canQuery` only reads it. -/

/-- A filter, opaque to the provider beyond equality; for the in-memory case
it is a predicate pass over rows. Modelled from the spec. -/
structure FilterSpec where
  column : String
  value : String
  deriving DecidableEq

/-- Whether a row passes a filter: its cell at the filter's column equals the
filter's value. Modelled from the spec (in-memory predicate pass). -/
def filterMatches (f : FilterSpec) (r : Row) : Bool :=
  match rowGet r f.column with
  | .str s => s == f.value
  | _ => false

/-- Query options: paging window plus an ordered sort list of which only the
first entry is applied. Modelled from the spec. -/
structure QueryOptions where
  offset : Option ℕ := none
  count : Option ℕ := none
  sort : List SortSpec := []

/-- A query response: the filtered row count and one page of results.
Modelled from the spec. -/
structure QueryResult where
  total : ℕ
  results : List Row
  deriving DecidableEq

/-- Provider state: the dataset, the active filter, and the "has more data"
flag consulted by `canQuery`. Modelled from the spec `QueryFilterState`. -/
structure ProviderState where
  data : List Row
  activeFilter : Option FilterSpec
  hasMoreData : Bool
  deriving DecidableEq

namespace JSONDataProvider

/-- Construction: empty filter, not yet exhausted. Modelled from the spec. -/
def init (d : List Row) : ProviderState :=
  ⟨d, none, true⟩

/-- The rows passing the active filter. -/
def filteredRows (s : ProviderState) : List Row :=
  match s.activeFilter with
  | none => s.data
  | some f => s.data.filter (filterMatches f)

/-- Sort key for a simple single-column sort: null/undefined ranks below
every defined value (`⊥` in `WithBot ℚ`). Modelled from the spec. -/
def simpleKey (c : String) (r : Row) : WithBot ℚ :=
  match rowGetNum r c with
  | none => ⊥
  | some q => (q : WithBot ℚ)

/-- Apply the first entry of the sort list: stacked sorts order by composite
score with domains over the rows being scored, simple sorts by the raw
column value; both stable. Modelled from the spec query pipeline. -/
def applySort (rows : List Row) : List SortSpec → List Row
  | [] => rows
  | .simple c asc :: _ => stableSortBy (simpleKey c) asc rows
  | .stacked st asc :: _ => stableSortBy (fun r => compositeScore rows st r) asc rows

/-- The index-decorated form of a stacked sort: each row is paired with its
input position, so that tie-breaking by input order is observable. -/
def stackRanked (rows : List Row) (st : StackDescriptor) (asc : Bool) :
    List (ℕ × Row) :=
  stableRank (fun r => compositeScore rows st r) asc rows

/-- `query`: filter, sort, slice `[offset, offset+count)` (to the end when
`count` is omitted), and mark exhaustion when the page reaches the end of
the filtered set. Modelled from the spec. -/
def query (s : ProviderState) (o : QueryOptions) : QueryResult × ProviderState :=
  let filtered := filteredRows s
  let sorted := applySort filtered o.sort
  let off := (o.offset).getD 0
  let page :=
    match o.count with
    | none => sorted.drop off
    | some c => (sorted.drop off).take c
  (⟨filtered.length, page⟩,
    { s with hasMoreData := decide (off + page.length < filtered.length) })

/-- `canQuery`: reads the "has more data" flag; its options (a filter list)
play no role in the answer and the state is untouched.
Modelled from the spec. -/
def canQuery (s : ProviderState) (_o : List FilterSpec) : Bool × ProviderState :=
  (s.hasMoreData, s)

/-- `filter`: records the new filter and resets exhaustion tracking.
Modelled from the spec. -/
def filterOp (s : ProviderState) (f : FilterSpec) : ProviderState :=
  { s with activeFilter := some f, hasMoreData := true }

/-- The ids (column "id") of a query's results on a fresh provider. -/
def resultIds (d : List Row) (o : QueryOptions) : List (Option ℚ) :=
  ((query (init d) o).1.results).map (fun r => rowGetNum r "id")

end JSONDataProvider

/-! ## Concrete datasets from the validated scenarios -/

/-- Shorthand for a numeric cell. -/
def nc (c : String) (v : ℚ) : String × CellValue := (c, .num v)

/-- The three-row dataset whose `null_col` is null in every row. -/
def TEST_DATA_WITH_ALL_NULLS : List Row :=
  [[nc "id" 1, nc "col1" 12, ("null_col", .null)],
   [nc "id" 2, nc "col1" 45, ("null_col", .null)],
   [nc "id" 3, nc "col1" 10, ("null_col", .null)]]

/-- The four-row dataset with hashtags/mentions/tweets counts. -/
def TEST_CASE_ONE : List Row :=
  [[nc "id" 1, nc "num_hashtags" 3, nc "num_mentions" 2, nc "num_tweets" 1],
   [nc "id" 2, nc "num_hashtags" 10, nc "num_mentions" 0, nc "num_tweets" 1],
   [nc "id" 3, nc "num_hashtags" 4, nc "num_mentions" 1, nc "num_tweets" 4],
   [nc "id" 4, nc "num_hashtags" 0, nc "num_mentions" 0, nc "num_tweets" 9]]

/-- The dataset with a constant column and negatives/zero. -/
def TEST_CASE_WITH_NEGATIVES_AND_ZERO : List Row :=
  [[nc "id" 1, nc "some_value" 2, nc "negative_numbers" 5],
   [nc "id" 2, nc "some_value" 2, nc "negative_numbers" 0],
   [nc "id" 3, nc "some_value" 2, nc "negative_numbers" (-5)],
   [nc "id" 4, nc "some_value" 2, nc "negative_numbers" (-1)]]

/-- The dataset in which `num_hashtags` is constant (degenerate domain). -/
def NUMERIC_SAME_DOMAIN : List Row :=
  [[nc "id" 1, nc "num_hashtags" 3, nc "num_mentions" 100],
   [nc "id" 2, nc "num_hashtags" 3, nc "num_mentions" 200],
   [nc "id" 3, nc "num_hashtags" 3, nc "num_mentions" 50]]

/-- The stacked ascending sort over `col1` and `null_col`, both weight 1/2. -/
def nullStackSort : QueryOptions :=
  { sort := [.stacked ⟨"someName", [⟨"col1", 1/2⟩, ⟨"null_col", 1/2⟩]⟩ true] }

/-- The stack over the three count columns, weight 1 each. -/
def countsStack : StackDescriptor :=
  ⟨"Stacked", [⟨"num_hashtags", 1⟩, ⟨"num_mentions", 1⟩, ⟨"num_tweets", 1⟩]⟩

/-- The stacked ascending sort over the three count columns, weight 1 each. -/
def testCaseOneSort : QueryOptions :=
  { sort := [.stacked countsStack true] }

/-- The stacked ascending sort over `some_value` and `negative_numbers`. -/
def negativeSort : QueryOptions :=
  { sort := [.stacked ⟨"Stacked",
      [⟨"some_value", 1⟩, ⟨"negative_numbers", 1⟩]⟩ true] }

/-- The stacked ascending sort over `num_hashtags` and `num_mentions`. -/
def sameDomainSort : QueryOptions :=
  { sort := [.stacked ⟨"Stacked",
      [⟨"num_hashtags", 1⟩, ⟨"num_mentions", 1⟩]⟩ true] }

/-! ## ConfigBuilder (translated from `src/powerbi/ConfigBuilder.ts`)

JavaScript exceptions (property access on `undefined`) are modelled by
`Option`: `none` is a thrown `TypeError`.  JavaScript `undefined`/`null`
slots are `none`; a possibly-null numeric array entry is `Option ℚ`
(`Math.max`/`Math.min` on a non-number, which would produce `NaN`, is
abstracted to `none`). -/

/-- `ITableSorterColumn`: label, column name, type, and an optional numeric
domain whose entries may be null. -/
structure TSColumn where
  label : String
  column : String
  type : String
  domain : Option (List (Option ℚ)) := none
  deriving DecidableEq

/-- `ITableSorterLayoutColumn`: a layout column with an optional filter
domain and optional children (JS distinguishes an absent `children` array
from an empty one). -/
inductive LayoutCol where
  | mk (column : String) (width : Option ℚ) (type : Option String)
      (domain : Option (List (Option ℚ))) (children : Option (List LayoutCol))

/-- The column name of a layout column. -/
def LayoutCol.column : LayoutCol → String
  | .mk c _ _ _ _ => c

/-- The filter domain of a layout column. -/
def LayoutCol.domain : LayoutCol → Option (List (Option ℚ))
  | .mk _ _ _ d _ => d

/-- The children of a layout column. -/
def LayoutCol.children : LayoutCol → Option (List LayoutCol)
  | .mk _ _ _ _ ch => ch

/-- `isValidDomain`: the domain is an array of length 2 with both entries
neither null nor undefined. -/
def isValidDomain (domain : Option (List (Option ℚ))) : Bool :=
  match domain with
  | none => false
  | some d => d.length == 2 && (d.getD 0 none).isSome && (d.getD 1 none).isSome

/-- `domain[i]` on a possibly-undefined array: out-of-bounds or a null entry
reads as undefined. -/
def domainEntry (domain : Option (List (Option ℚ))) (i : ℕ) : Option ℚ :=
  (domain.getD []).getD i none

/-- `Math.max` on possibly-undefined values; a non-number operand yields
`NaN`, abstracted to `none`. -/
def jsMax (a b : Option ℚ) : Option ℚ :=
  match a, b with
  | some x, some y => some (max x y)
  | _, _ => none

/-- `Math.min`, as `jsMax`. -/
def jsMin (a b : Option ℚ) : Option ℚ :=
  match a, b with
  | some x, some y => some (min x y)
  | _, _ => none

/-- `list.filter(m => m.column === name)[0]`. -/
def firstByColumn (cols : List TSColumn) (name : String) : Option TSColumn :=
  (cols.filter (fun m => m.column == name)).head?

/-- The `isFiltered` expression of `columnFilter`: evaluating
`isValidDomain(oldCol.domain)` throws (`none`) when the layout column's own
domain is valid but `oldCol` is undefined. -/
def isFilteredCalc (dom : List (Option ℚ)) (oldColO : Option TSColumn) : Option Bool :=
  if isValidDomain (some dom) then
    match oldColO with
    | none => none
    | some oldCol =>
      some (isValidDomain oldCol.domain &&
        (!(domainEntry (some dom) 0 == domainEntry oldCol.domain 0) ||
         !(domainEntry (some dom) 1 == domainEntry oldCol.domain 1)))
  else
    some false

/-- The domain-bounding step of `columnFilter` (the body of `if (newCol)`):
returns the layout column's new domain, `none` on a thrown `TypeError`
(missing `oldCol` with a valid filter domain, or `newCol.domain` undefined). -/
def boundDomain (newCols oldCols : List TSColumn) (name : String)
    (dom : Option (List (Option ℚ))) : Option (Option (List (Option ℚ))) :=
  match firstByColumn newCols name with
  | none => some dom
  | some newCol =>
    match dom with
    | none => some none
    | some d =>
      match isFilteredCalc d (firstByColumn oldCols name) with
      | none => none
      | some isFiltered =>
        match newCol.domain with
        | none => none
        | some nd =>
          let lower := if isFiltered then jsMax (domainEntry (some nd) 0) (domainEntry (some d) 0)
            else domainEntry (some nd) 0
          let upper := if isFiltered then jsMin (domainEntry (some nd) 1) (domainEntry (some d) 1)
            else domainEntry (some nd) 1
          some (some [lower, upper])

mutual

/-- The `columnFilter` predicate of `syncLayoutColumns`: whether the layout
column is kept, together with its mutated form; `none` is a thrown error. -/
def columnFilterOne (newCols oldCols : List TSColumn) :
    LayoutCol → Option (Bool × LayoutCol)
  | .mk col w ty dom children =>
    match boundDomain newCols oldCols col dom with
    | none => none
    | some dom₁ =>
      match children with
      | some ch =>
        match columnFilterList newCols oldCols ch with
        | none => none
        | some ch₁ => some (decide (0 < ch₁.length), .mk col w ty dom₁ (some ch₁))
      | none => some ((firstByColumn newCols col).isSome, .mk col w ty dom₁ none)

/-- `layoutCols.filter(columnFilter)`, left to right, propagating a thrown
error. -/
def columnFilterList (newCols oldCols : List TSColumn) :
    List LayoutCol → Option (List LayoutCol)
  | [] => some []
  | c :: cs =>
    match columnFilterOne newCols oldCols c with
    | none => none
    | some (keep, c₁) =>
      match columnFilterList newCols oldCols cs with
      | none => none
      | some rest => some (if keep then c₁ :: rest else rest)

end

/-- `syncLayoutColumns(layoutCols, newCols, oldCols)`: defaults null/undefined
arguments to `[]` and filters the layout columns; `none` is a thrown error. -/
def syncLayoutColumns (layoutCols : Option (List LayoutCol))
    (newCols oldCols : Option (List TSColumn)) : Option (List LayoutCol) :=
  columnFilterList (newCols.getD []) (oldCols.getD []) (layoutCols.getD [])

/-- A stack inside a persisted sort configuration. -/
structure ConfigSortStack where
  name : String
  columns : List StackColumn
  deriving DecidableEq

/-- A persisted sort: a column name or a stack, plus direction. -/
structure ConfigSort where
  column : Option String := none
  asc : Bool := true
  stack : Option ConfigSortStack := none
  deriving DecidableEq

/-- The `layout` object of a persisted configuration. -/
structure TSLayout where
  primary : Option (List LayoutCol)

/-- `ITableSorterConfiguration`, as used by `ConfigBuilder`. -/
structure TSConfig where
  primaryKey : String
  columns : List TSColumn
  sort : Option ConfigSort := none
  layout : Option TSLayout := none

/-- The domain-override pass of `processExistingConfig`: each kept column's
domain is reset from the matching new column when that column carries a
domain. -/
def overrideDomain (columns : List TSColumn) (n : TSColumn) : TSColumn :=
  match firstByColumn columns n.column with
  | some newCol => if newCol.domain.isSome then { n with domain := newCol.domain } else n
  | none => n

/-- `removeMissingColumns` via `Utils.listDiff` (equality by label).
Modelled from the spec: `listDiff` is an external list-diff utility that
reports items of the existing list absent from the new list as removed and
items of the new list absent from the existing list as added; removal
splices the matching column out, addition pushes the new column (and a
default layout entry of width 100 when a primary layout exists). -/
def listDiffColumns (existing : List TSColumn) (columns : List TSColumn) :
    List TSColumn × List TSColumn :=
  let newLabels := columns.map (fun c => c.label)
  let oldLabels := existing.map (fun c => c.label)
  (existing.filter (fun c => newLabels.contains c.label),
   columns.filter (fun c => !(oldLabels.contains c.label)))

/-- The column-filtering and domain-refresh passes of `processExistingConfig`:
`config.columns` keeps only columns whose name still exists, with domains
reset from the new data. -/
def filteredOldColumns (config : TSConfig) (columns : List TSColumn) : List TSColumn :=
  (config.columns.filter
      (fun c => (columns.map (fun n => n.column)).contains c.column)).map
    (overrideDomain columns)

/-- The sort pass of `processExistingConfig`: a sort whose column is missing
from the new column names (or absent, as `indexOf(undefined) < 0`) and which
carries no stack is dropped. -/
def processedSort (sort : Option ConfigSort) (columns : List TSColumn) :
    Option ConfigSort :=
  match sort with
  | none => none
  | some s =>
    if (s.column.elim true
          (fun c => !((columns.map (fun n => n.column)).contains c)))
        && s.stack.isNone
    then none else some s

/-- The final column list after `removeMissingColumns`: surviving old columns
followed by newly added ones. -/
def processedColumns (config : TSConfig) (columns : List TSColumn) : List TSColumn :=
  (listDiffColumns (filteredOldColumns config columns) columns).1
    ++ (listDiffColumns (filteredOldColumns config columns) columns).2

/-- `processExistingConfig(config, columns)`: filters out vanished columns,
refreshes domains, drops a simple sort on a vanished column, synchronizes
the layout, and reconciles the column list with the new column set.
`none` is an error thrown by `syncLayoutColumns`. -/
def processExistingConfig (config : TSConfig) (columns : List TSColumn) :
    Option TSConfig :=
  match config.layout with
  | none =>
    some { primaryKey := config.primaryKey, columns := processedColumns config columns,
           sort := processedSort config.sort columns, layout := none }
  | some lay =>
    match lay.primary with
    | none =>
      some { primaryKey := config.primaryKey, columns := processedColumns config columns,
             sort := processedSort config.sort columns, layout := some lay }
    | some prim =>
      match syncLayoutColumns (some prim) (some (filteredOldColumns config columns))
          (some config.columns) with
      | none => none
      | some prim₁ =>
        some { primaryKey := config.primaryKey, columns := processedColumns config columns,
               sort := processedSort config.sort columns,
               layout := some ⟨some (prim₁ ++
                 (listDiffColumns (filteredOldColumns config columns) columns).2.map
                   (fun c => LayoutCol.mk c.column (some 100) (some c.type) none none))⟩ }

/-- A new (data-view) column named "A" with a fresh numeric domain. -/
def newColA : TSColumn :=
  { label := "A", column := "A", type := "number", domain := some [some 0, some 10] }

/-- A layout column for "A" carrying a valid (filtered) domain. -/
def filteredLayoutColA : LayoutCol :=
  .mk "A" none none (some [some 0, some 1]) none

/-- A layout column for "A" with no filter domain and no children. -/
def plainLayoutColA : LayoutCol :=
  .mk "A" none none none none

/-- A persisted configuration whose simple sort names column "B". -/
def configSortB : TSConfig :=
  { primaryKey := "A",
    columns := [{ label := "A", column := "A", type := "string" },
                { label := "B", column := "B", type := "string" }],
    sort := some { column := some "B", asc := true } }

/-- The new column set containing only "A". -/
def newColsOnlyA : List TSColumn :=
  [{ label := "A", column := "A", type := "string" }]

/-! # Theorems -/

/-- The ranked list is sorted by the lexicographic (key, input index) order. -/
theorem stableRank_sorted {α β : Type} [LinearOrder β] (key : α → β) (asc : Bool)
    (xs : List α) : (stableRank key asc xs).Sorted (lexRel key asc) :=
  List.sorted_insertionSort _ _

/-- The ranked list is a permutation of the index-decorated input. -/
theorem stableRank_perm {α β : Type} [LinearOrder β] (key : α → β) (asc : Bool)
    (xs : List α) : (stableRank key asc xs).Perm xs.enum :=
  List.perm_insertionSort _ _

/-- Any earlier element of the ranked list is `lexRel`-below any later one. -/
theorem stableRank_lexRel {α β : Type} [LinearOrder β] (key : α → β) (asc : Bool)
    (xs : List α) (k l : ℕ) (hk : k < (stableRank key asc xs).length)
    (hl : l < (stableRank key asc xs).length) (hkl : k < l) :
    lexRel key asc ((stableRank key asc xs)[k]) ((stableRank key asc xs)[l]) :=
  List.pairwise_iff_getElem.mp (stableRank_sorted key asc xs) k l hk hl hkl

/-- The input indices carried by the ranked list are pairwise distinct. -/
theorem stableRank_fst_nodup {α β : Type} [LinearOrder β] (key : α → β) (asc : Bool)
    (xs : List α) : ((stableRank key asc xs).map Prod.fst).Nodup :=
  (((stableRank_perm key asc xs).map Prod.fst).nodup_iff).mpr (List.nodup_enum_map_fst xs)

/-- Stability: two positions of the ranked list holding equal keys carry
input indices in strictly increasing order. -/
theorem stableRank_fst_lt {α β : Type} [LinearOrder β] (key : α → β) (asc : Bool)
    (xs : List α) (k l : ℕ) (hk : k < (stableRank key asc xs).length)
    (hl : l < (stableRank key asc xs).length) (hkl : k < l)
    (hkey : key ((stableRank key asc xs)[k].2) = key ((stableRank key asc xs)[l].2)) :
    (stableRank key asc xs)[k].1 < (stableRank key asc xs)[l].1 := by
  have hrel := stableRank_lexRel key asc xs k l hk hl hkl
  unfold lexRel at hrel
  have hle : (stableRank key asc xs)[k].1 ≤ (stableRank key asc xs)[l].1 := by
    rcases hrel with h | ⟨_, h⟩
    · exfalso
      cases asc <;> simp only [Bool.false_eq_true, if_false, if_true] at h <;>
        rw [hkey] at h <;> exact lt_irrefl _ h
    · exact h
  rcases lt_or_eq_of_le hle with h | h
  · exact h
  · exfalso
    have hnd := stableRank_fst_nodup key asc xs
    have hkm : k < ((stableRank key asc xs).map Prod.fst).length := by simpa using hk
    have hlm : l < ((stableRank key asc xs).map Prod.fst).length := by simpa using hl
    have hmap : ((stableRank key asc xs).map Prod.fst).get ⟨k, hkm⟩
        = ((stableRank key asc xs).map Prod.fst).get ⟨l, hlm⟩ := by
      simpa [List.get_eq_getElem, List.getElem_map] using h
    have hfin := (List.Nodup.get_inj_iff hnd).mp hmap
    exact absurd (congrArg Fin.val hfin) (Nat.ne_of_lt hkl)

/-- Monotonicity of an ascending stable sort in its key. -/
theorem stableSortBy_mono {α β : Type} [LinearOrder β] (key : α → β) (xs : List α)
    (k l : ℕ) (hk : k < (stableSortBy key true xs).length)
    (hl : l < (stableSortBy key true xs).length) (hkl : k ≤ l) :
    key ((stableSortBy key true xs)[k]) ≤ key ((stableSortBy key true xs)[l]) := by
  rcases eq_or_lt_of_le hkl with rfl | hlt
  · exact le_refl _
  · have hk' : k < (stableRank key true xs).length := by
      simpa [stableSortBy] using hk
    have hl' : l < (stableRank key true xs).length := by
      simpa [stableSortBy] using hl
    have hrel := stableRank_lexRel key true xs k l hk' hl' hlt
    unfold lexRel at hrel
    simp only [if_true] at hrel
    simp only [stableSortBy, List.getElem_map]
    rcases hrel with h | ⟨h, _⟩
    · exact le_of_lt h
    · exact le_of_eq h

/-- Sorting the empty row list yields the empty list for any sort spec. -/
theorem applySort_nil (ss : List SortSpec) : JSONDataProvider.applySort [] ss = [] := by
  cases ss with
  | nil => rfl
  | cons h t => cases h <;> rfl

/-- `query` on a fresh empty provider returns total 0, no results, and an
exhausted provider, for every option set. -/
theorem query_empty (o : QueryOptions) :
    JSONDataProvider.query (JSONDataProvider.init []) o
      = (⟨0, []⟩, ⟨[], none, false⟩) := by
  cases o with
  | mk off cnt srt =>
    cases cnt <;>
      simp [JSONDataProvider.query, JSONDataProvider.init,
        JSONDataProvider.filteredRows, applySort_nil]

/-- C1: in a stacked ascending sort whose stack contains a column that is
null in every row, each row's weighted contribution for that column is 0
(null normalizes to the minimum of the range), and the all-null scenario
(stack `col1` (weight 1/2) + `null_col` (weight 1/2), ascending) returns the
rows in id order [3, 1, 2]. -/
theorem C1_all_null_stack_column :
    (∀ (rows : List Row) (st : StackDescriptor) (sc : StackColumn),
      sc ∈ st.columns →
      (∀ r ∈ rows, rowGetNum r sc.column = none) →
      ∀ r ∈ rows, stackTerm rows sc r = 0) ∧
    JSONDataProvider.resultIds TEST_DATA_WITH_ALL_NULLS nullStackSort
      = [some 3, some 1, some 2] := by
  refine ⟨?_, by decide⟩
  intro rows st sc _ hnull r hr
  simp [stackTerm, norm, hnull r hr]

theorem C1_all_null_stack_column_witness :
    stackTerm TEST_DATA_WITH_ALL_NULLS ⟨"null_col", 1/2⟩
      [nc "id" 1, nc "col1" 12, ("null_col", CellValue.null)] = 0 :=
  C1_all_null_stack_column.1 TEST_DATA_WITH_ALL_NULLS
    ⟨"someName", [⟨"col1", 1/2⟩, ⟨"null_col", 1/2⟩]⟩ ⟨"null_col", 1/2⟩
    (by decide) (by decide)
    [nc "id" 1, nc "col1" 12, ("null_col", CellValue.null)] (by decide)

/-- C2: an ascending stacked sort orders the rows by their composite score
(the weighted sum of per-column normalized values, domains taken over the
rows being scored), and the equally-weighted three-column scenario yields id
order [2, 4, 3, 1]. -/
theorem C2_stacked_sort_orders_by_score :
    (∀ (rows : List Row) (st : StackDescriptor) (k l : ℕ)
      (hk : k < (JSONDataProvider.applySort rows [.stacked st true]).length)
      (hl : l < (JSONDataProvider.applySort rows [.stacked st true]).length),
      k ≤ l →
      compositeScore rows st ((JSONDataProvider.applySort rows [.stacked st true])[k])
        ≤ compositeScore rows st ((JSONDataProvider.applySort rows [.stacked st true])[l])) ∧
    JSONDataProvider.resultIds TEST_CASE_ONE testCaseOneSort
      = [some 2, some 4, some 3, some 1] := by
  refine ⟨?_, by decide⟩
  intro rows st k l hk hl hkl
  exact stableSortBy_mono (fun r => compositeScore rows st r) rows k l hk hl hkl

theorem C2_stacked_sort_orders_by_score_witness :
    compositeScore TEST_CASE_ONE countsStack
      ((JSONDataProvider.applySort TEST_CASE_ONE [.stacked countsStack true]).get ⟨0, by decide⟩)
      ≤ compositeScore TEST_CASE_ONE countsStack
      ((JSONDataProvider.applySort TEST_CASE_ONE [.stacked countsStack true]).get ⟨1, by decide⟩) :=
  C2_stacked_sort_orders_by_score.1 TEST_CASE_ONE countsStack 0 1
    (by decide) (by decide) (by decide)

/-- C3: the normalization is domain-relative, `(v - min) / (max - min)` for a
non-degenerate domain regardless of sign, and the negatives-and-zero
scenario yields id order [3, 4, 2, 1]. -/
theorem C3_normalization_domain_relative :
    (∀ (v lo hi : ℚ), hi ≠ lo → norm (some v) lo hi = (v - lo) / (hi - lo)) ∧
    JSONDataProvider.resultIds TEST_CASE_WITH_NEGATIVES_AND_ZERO negativeSort
      = [some 3, some 4, some 2, some 1] := by
  refine ⟨?_, by decide⟩
  intro v lo hi h
  simp [norm, h]

theorem C3_normalization_domain_relative_witness :
    norm (some (-5)) (-5) 5 = ((-5) - (-5)) / (5 - (-5)) :=
  C3_normalization_domain_relative.1 (-5) (-5) 5 (by decide)

/-- C4: a degenerate domain (`max = min`) makes a stack member contribute
`norm = 0` for every value, the query is total (no exception), and the
min = max scenario is ordered purely by the other stack member: id order
[3, 1, 2]. -/
theorem C4_degenerate_domain_contributes_zero :
    (∀ (v : Option ℚ) (m : ℚ), norm v m m = 0) ∧
    JSONDataProvider.resultIds NUMERIC_SAME_DOMAIN sameDomainSort
      = [some 3, some 1, some 2] := by
  refine ⟨?_, by decide⟩
  intro v m
  cases v <;> simp [norm]

/-- C5: `canQuery` answers true immediately after construction and after any
`filter` call (whatever the previous state), and answers false after a
`query` returned every remaining row under the active filter. -/
theorem C5_canQuery_exhaustion_machine :
    (∀ d : List Row, (JSONDataProvider.canQuery (JSONDataProvider.init d) []).1 = true) ∧
    (∀ (s : ProviderState) (f : FilterSpec) (q : List FilterSpec),
      (JSONDataProvider.canQuery (JSONDataProvider.filterOp s f) q).1 = true) ∧
    (∀ (s : ProviderState) (o : QueryOptions) (q : List FilterSpec),
      (JSONDataProvider.query s o).1.total
          ≤ (o.offset).getD 0 + (JSONDataProvider.query s o).1.results.length →
      (JSONDataProvider.canQuery ((JSONDataProvider.query s o).2) q).1 = false) := by
  refine ⟨fun d => rfl, fun s f q => rfl, ?_⟩
  intro s o q h
  simp only [JSONDataProvider.query, JSONDataProvider.canQuery] at h ⊢
  rw [decide_eq_false_iff_not]
  omega

theorem C5_canQuery_exhaustion_machine_witness :
    (JSONDataProvider.canQuery
      ((JSONDataProvider.query (JSONDataProvider.init NUMERIC_SAME_DOMAIN) {}).2) []).1
      = false :=
  C5_canQuery_exhaustion_machine.2.2 (JSONDataProvider.init NUMERIC_SAME_DOMAIN) {} []
    (by decide)

/-- C6: `canQuery` is idempotent and side-effect free: it returns the state
unchanged, a repeated call answers the same, and the "has more data" flag is
untouched by it. -/
theorem C6_canQuery_idempotent_pure :
    ∀ (s : ProviderState) (q : List FilterSpec),
      (JSONDataProvider.canQuery s q).2 = s ∧
      (JSONDataProvider.canQuery ((JSONDataProvider.canQuery s q).2) q).1
        = (JSONDataProvider.canQuery s q).1 ∧
      ((JSONDataProvider.canQuery s q).2).hasMoreData = s.hasMoreData :=
  fun _ _ => ⟨rfl, rfl, rfl⟩

/-- C7: stacked-sort scoring is deterministic (the sorted output is the pure
function `stackRanked` of the filtered row set and the stack descriptor) and
stable: positions with equal composite score carry strictly increasing input
indices; concretely, ids 2 and 4 tie in TEST_CASE_ONE and appear in input
order. -/
theorem C7_stacked_sort_deterministic_stable :
    (∀ (rows : List Row) (st : StackDescriptor) (asc : Bool),
      JSONDataProvider.applySort rows [.stacked st asc]
        = (JSONDataProvider.stackRanked rows st asc).map Prod.snd) ∧
    (∀ (rows : List Row) (st : StackDescriptor) (asc : Bool) (k l : ℕ)
      (hk : k < (JSONDataProvider.stackRanked rows st asc).length)
      (hl : l < (JSONDataProvider.stackRanked rows st asc).length),
      k < l →
      compositeScore rows st ((JSONDataProvider.stackRanked rows st asc)[k].2)
        = compositeScore rows st ((JSONDataProvider.stackRanked rows st asc)[l].2) →
      (JSONDataProvider.stackRanked rows st asc)[k].1
        < (JSONDataProvider.stackRanked rows st asc)[l].1) ∧
    (compositeScore TEST_CASE_ONE countsStack (TEST_CASE_ONE.getD 1 [])
      = compositeScore TEST_CASE_ONE countsStack (TEST_CASE_ONE.getD 3 [])) ∧
    JSONDataProvider.resultIds TEST_CASE_ONE testCaseOneSort
      = [some 2, some 4, some 3, some 1] := by
  refine ⟨fun rows st asc => rfl, ?_, by decide, by decide⟩
  intro rows st asc k l hk hl hkl hscore
  exact stableRank_fst_lt (fun r => compositeScore rows st r) asc rows k l hk hl hkl hscore

theorem C7_stacked_sort_deterministic_stable_witness :
    ((JSONDataProvider.stackRanked TEST_CASE_ONE countsStack true).get ⟨0, by decide⟩).1
      < ((JSONDataProvider.stackRanked TEST_CASE_ONE countsStack true).get ⟨1, by decide⟩).1 :=
  C7_stacked_sort_deterministic_stable.2.1 TEST_CASE_ONE countsStack true 0 1
    (by decide) (by decide) (by decide) (by decide)

/-- C8: the empty dataset is valid at every stage: `query` returns
`{total := 0, results := []}`, and `canQuery` runs the same exhaustion
machine — true before the first query, false after it, true again after
`filter`. -/
theorem C8_empty_dataset_valid :
    (∀ o : QueryOptions,
      (JSONDataProvider.query (JSONDataProvider.init []) o).1 = ⟨0, []⟩) ∧
    ((JSONDataProvider.canQuery (JSONDataProvider.init []) []).1 = true) ∧
    (∀ (o : QueryOptions) (q : List FilterSpec),
      (JSONDataProvider.canQuery
        ((JSONDataProvider.query (JSONDataProvider.init []) o).2) q).1 = false) ∧
    (∀ (o : QueryOptions) (f : FilterSpec) (q : List FilterSpec),
      (JSONDataProvider.canQuery (JSONDataProvider.filterOp
        ((JSONDataProvider.query (JSONDataProvider.init []) o).2) f) q).1 = true) := by
  refine ⟨fun o => by rw [query_empty], rfl, fun o q => ?_, fun o f q => ?_⟩
  · rw [query_empty]
    rfl
  · rw [query_empty]
    rfl

/-- `overrideDomain` never changes the column name. -/
theorem overrideDomain_column (columns : List TSColumn) (n : TSColumn) :
    (overrideDomain columns n).column = n.column := by
  unfold overrideDomain
  cases firstByColumn columns n.column with
  | none => rfl
  | some newCol =>
    dsimp only
    split <;> rfl

/-- Every column surviving `processExistingConfig`'s column passes is named
after one of the new columns. -/
theorem processedColumns_column_mem (config : TSConfig) (columns : List TSColumn)
    (c : TSColumn) (hc : c ∈ processedColumns config columns) :
    c.column ∈ columns.map (fun n => n.column) := by
  unfold processedColumns listDiffColumns at hc
  rcases List.mem_append.mp hc with h | h
  · have h₁ : c ∈ filteredOldColumns config columns := (List.mem_filter.mp h).1
    unfold filteredOldColumns at h₁
    rcases List.mem_map.mp h₁ with ⟨n, hn, rfl⟩
    rw [overrideDomain_column]
    have h₂ := (List.mem_filter.mp hn).2
    simpa using h₂
  · have h₁ : c ∈ columns := (List.mem_filter.mp h).1
    exact List.mem_map.mpr ⟨c, h₁, rfl⟩

/-- A stackless sort on a column missing from the new set is dropped. -/
theorem processedSort_drops_missing (s : ConfigSort) (columns : List TSColumn)
    (cn : String) (hst : s.stack = none) (hcol : s.column = some cn)
    (hmem : cn ∉ columns.map (fun n => n.column)) :
    processedSort (some s) columns = none := by
  have hmem₂ : ∀ x ∈ columns, ¬x.column = cn := by
    intro x hx he
    exact hmem (List.mem_map.mpr ⟨x, hx, he⟩)
  simp only [processedSort, hcol, hst]
  simp
  exact hmem₂

/-- A stacked sort is never dropped. -/
theorem processedSort_keeps_stacked (s : ConfigSort) (columns : List TSColumn)
    (st : ConfigSortStack) (hst : s.stack = some st) :
    processedSort (some s) columns = some s := by
  simp [processedSort, hst]

/-- Whenever `processExistingConfig` returns, the resulting columns and sort
are the ones computed by the column and sort passes. -/
theorem processExistingConfig_some (config : TSConfig) (columns : List TSColumn)
    (out : TSConfig) (h : processExistingConfig config columns = some out) :
    out.columns = processedColumns config columns ∧
      out.sort = processedSort config.sort columns := by
  unfold processExistingConfig at h
  split at h
  · cases h
    exact ⟨rfl, rfl⟩
  · split at h
    · cases h
      exact ⟨rfl, rfl⟩
    · split at h
      · exact absurd h (by simp)
      · cases h
        exact ⟨rfl, rfl⟩

/-- C9: after `processExistingConfig(config, columns)` returns, every entry
of the resulting column list is named after a column of the new set; a
simple (stackless) sort whose column vanished is cleared to undefined; a
stacked sort is never removed. -/
theorem C9_processExistingConfig_invariants :
    ∀ (config : TSConfig) (columns : List TSColumn) (out : TSConfig),
      processExistingConfig config columns = some out →
      (∀ c ∈ out.columns, c.column ∈ columns.map (fun n => n.column)) ∧
      (∀ (s : ConfigSort) (cn : String), config.sort = some s → s.stack = none →
        s.column = some cn → cn ∉ columns.map (fun n => n.column) →
        out.sort = none) ∧
      (∀ (s : ConfigSort) (st : ConfigSortStack), config.sort = some s →
        s.stack = some st → out.sort = some s) := by
  intro config columns out h
  obtain ⟨hcols, hsort⟩ := processExistingConfig_some config columns out h
  refine ⟨?_, ?_, ?_⟩
  · intro c hc
    exact processedColumns_column_mem config columns c (hcols ▸ hc)
  · intro s cn hs hst hcol hmem
    rw [hsort, hs]
    exact processedSort_drops_missing s columns cn hst hcol hmem
  · intro s st hs hstack
    rw [hsort, hs]
    exact processedSort_keeps_stacked s columns st hstack

theorem C9_processExistingConfig_invariants_witness :
    (∀ c ∈ (⟨"A", newColsOnlyA, none, none⟩ : TSConfig).columns,
      c.column ∈ newColsOnlyA.map (fun n => n.column)) ∧
    (∀ (s : ConfigSort) (cn : String), configSortB.sort = some s → s.stack = none →
      s.column = some cn → cn ∉ newColsOnlyA.map (fun n => n.column) →
      (⟨"A", newColsOnlyA, none, none⟩ : TSConfig).sort = none) ∧
    (∀ (s : ConfigSort) (st : ConfigSortStack), configSortB.sort = some s →
      s.stack = some st → (⟨"A", newColsOnlyA, none, none⟩ : TSConfig).sort = some s) :=
  C9_processExistingConfig_invariants configSortB newColsOnlyA
    ⟨"A", newColsOnlyA, none, none⟩ (by rfl)

/-- The first column matching a name belongs to the list and bears the name. -/
theorem firstByColumn_spec (cols : List TSColumn) (name : String) (n : TSColumn)
    (h : firstByColumn cols name = some n) : n ∈ cols ∧ n.column = name := by
  unfold firstByColumn at h
  have hmem₂ : n ∈ cols.filter (fun m => m.column == name) :=
    List.mem_of_mem_head? (Option.mem_def.mpr h)
  obtain ⟨hmem, hpred⟩ := List.mem_filter.mp hmem₂
  exact ⟨hmem, by simpa using hpred⟩

/-- Whenever `columnFilter` keeps a layout column, the kept column keeps its
name, and it either matches a new column or retains at least one child. -/
theorem columnFilterOne_spec (newCols oldCols : List TSColumn) (c : LayoutCol)
    (b : Bool) (c₁ : LayoutCol)
    (h : columnFilterOne newCols oldCols c = some (b, c₁)) :
    c₁.column = c.column ∧
      (b = true →
        (∃ n ∈ newCols, n.column = c₁.column) ∨
          ∃ ch, c₁.children = some ch ∧ ch ≠ []) := by
  cases c with
  | mk col w ty dom children =>
    unfold columnFilterOne at h
    split at h
    · exact absurd h (by simp)
    · split at h
      · split at h
        · exact absurd h (by simp)
        · rename_i dom₁ ch ch₁ hcl
          injection h with h2
          injection h2 with hb hc
          subst hb
          subst hc
          refine ⟨rfl, fun hbt => Or.inr ⟨ch₁, rfl, ?_⟩⟩
          have hlen : 0 < ch₁.length := of_decide_eq_true hbt
          exact List.ne_nil_of_length_pos hlen
      · injection h with h2
        injection h2 with hb hc
        subst hb
        subst hc
        refine ⟨rfl, fun hbt => Or.inl ?_⟩
        obtain ⟨n, hn⟩ := Option.isSome_iff_exists.mp hbt
        obtain ⟨hmem, hcoleq⟩ := firstByColumn_spec newCols col n hn
        exact ⟨n, hmem, hcoleq⟩

/-- Filtering a layout column list, when it does not throw, yields a sublist
(by column name) in which every survivor matches a new column or retains a
child. -/
theorem columnFilterList_spec (newCols oldCols : List TSColumn)
    (cs : List LayoutCol) (out : List LayoutCol)
    (h : columnFilterList newCols oldCols cs = some out) :
    (out.map LayoutCol.column).Sublist (cs.map LayoutCol.column) ∧
      ∀ c ∈ out, (∃ n ∈ newCols, n.column = c.column) ∨
        ∃ ch, c.children = some ch ∧ ch ≠ [] := by
  induction cs generalizing out with
  | nil =>
    unfold columnFilterList at h
    injection h with h1
    subst h1
    exact ⟨by simp, by simp⟩
  | cons c cs ih =>
    unfold columnFilterList at h
    split at h
    · exact absurd h (by simp)
    · rename_i keep c₁ h1
      split at h
      · exact absurd h (by simp)
      · rename_i rest h2
        injection h with h3
        obtain ⟨hcol, hprop⟩ := columnFilterOne_spec newCols oldCols c keep c₁ h1
        obtain ⟨ihs, ihm⟩ := ih rest h2
        cases keep with
        | true =>
          simp only [if_pos] at h3
          subst h3
          constructor
          · simp only [List.map_cons]
            rw [hcol]
            exact ihs.cons₂ _
          · intro x hx
            rcases List.mem_cons.mp hx with rfl | hx
            · exact hprop rfl
            · exact ihm x hx
        | false =>
          simp only [Bool.false_eq_true, if_neg] at h3
          subst h3
          exact ⟨ihs.trans (List.sublist_cons_self _ _), ihm⟩

/-- C10 counterexample: a layout column that carries a valid filter domain
and references a column present in `newCols` but absent from `oldCols` makes
`syncLayoutColumns` throw (dereferencing `oldCol.domain` on `undefined`),
so the call does not return a sublist. -/
theorem C10_syncLayoutColumns_counterexample :
    syncLayoutColumns (some [filteredLayoutColA]) (some [newColA]) (some []) = none :=
  rfl

/-- C10 amended: `syncLayoutColumns` accepts null/undefined arguments, and
whenever it returns (it can throw when a domain-carrying layout column
matches a new column), the result is a sublist of the layout columns in
which every entry references a column of `newCols` or has at least one
surviving child. -/
theorem C10_syncLayoutColumns_conditional :
    ∀ (layoutCols : Option (List LayoutCol)) (newCols oldCols : Option (List TSColumn))
      (out : List LayoutCol),
      syncLayoutColumns layoutCols newCols oldCols = some out →
      (out.map LayoutCol.column).Sublist ((layoutCols.getD []).map LayoutCol.column) ∧
        ∀ c ∈ out, (∃ n ∈ newCols.getD [], n.column = c.column) ∨
          ∃ ch, c.children = some ch ∧ ch ≠ [] := by
  intro lcs ncs ocs out h
  exact columnFilterList_spec (ncs.getD []) (ocs.getD []) (lcs.getD []) out h

theorem C10_syncLayoutColumns_conditional_witness :
    (([plainLayoutColA].map LayoutCol.column).Sublist
      (((some [plainLayoutColA] : Option (List LayoutCol)).getD []).map LayoutCol.column)) ∧
    ∀ c ∈ [plainLayoutColA],
      (∃ n ∈ ((some [newColA] : Option (List TSColumn)).getD []), n.column = c.column) ∨
        ∃ ch, c.children = some ch ∧ ch ≠ [] :=
  C10_syncLayoutColumns_conditional (some [plainLayoutColA]) (some [newColA]) none
    [plainLayoutColA] (by rfl)

end TableSorter
